import Mathlib

/-!
Verification of the qsql dynamic SQL generation engine
(src/pkg/qsql: funcs.go, utils.go, error.go, qsql.go).

Strings are modelled as Lean strings; the character level workhorses
below model the Go strings package functions the engine uses
(TrimSpace, Split, Join, ReplaceAll, ToUpper).
-/

namespace QSql

/-- goIsSpace models Go unicode.IsSpace on the Latin-1 range, the set of
characters that strings.TrimSpace removes: space, tab, newline, vertical
tab, form feed, carriage return, NEL and NBSP. -/
def goIsSpace (c : Char) : Bool :=
  c == ' ' || c == '\t' || c == '\n' || c == Char.ofNat 11 || c == Char.ofNat 12 ||
  c == '\r' || c == Char.ofNat 133 || c == Char.ofNat 160

/-- trimChars models strings.TrimSpace on the character list of a string:
drop leading space characters, then drop trailing space characters. -/
def trimChars (cs : List Char) : List Char :=
  ((cs.dropWhile goIsSpace).reverse.dropWhile goIsSpace).reverse

/-- splitOnChar models strings.Split with a one-character separator. -/
def splitOnChar (sep : Char) : List Char → List (List Char)
  | [] => [[]]
  | c :: rest =>
    if c = sep then [] :: splitOnChar sep rest
    else
      match splitOnChar sep rest with
      | [] => [[c]]
      | h :: t => (c :: h) :: t

/-- intercalateChars models strings.Join at the character level. -/
def intercalateChars (sep : List Char) : List (List Char) → List Char
  | [] => []
  | [x] => x
  | x :: xs => x ++ sep ++ intercalateChars sep xs

/-- containsDouble models strings.Contains(s, two spaces). -/
def containsDouble : List Char → Bool
  | [] => false
  | [_] => false
  | c1 :: c2 :: rest => (c1 == ' ' && c2 == ' ') || containsDouble (c2 :: rest)

/-- replaceDouble models one strings.ReplaceAll(s, two spaces, one space)
pass: scan left to right, replacing non-overlapping double spaces. -/
def replaceDouble : List Char → List Char
  | [] => []
  | [c] => [c]
  | c1 :: c2 :: rest =>
    if c1 = ' ' ∧ c2 = ' ' then ' ' :: replaceDouble rest
    else c1 :: replaceDouble (c2 :: rest)

/-- collapseFuel is the fuel indexed unfolding of the cleanSQL loop in
utils.go that repeats ReplaceAll(result, two spaces, one space) while a
double space remains. Each pass with a double space strictly shortens
the list, so fuel equal to the length of the input is always enough;
collapseSpaces below instantiates the fuel that way and the loop
recurrence is proved as a theorem. -/
def collapseFuel : Nat → List Char → List Char
  | 0, cs => cs
  | n + 1, cs => if containsDouble cs then collapseFuel n (replaceDouble cs) else cs

/-- collapseSpaces models the while loop of cleanSQL in utils.go. -/
def collapseSpaces (cs : List Char) : List Char :=
  collapseFuel cs.length cs

/-- cleanSQLChars is the character level body of cleanSQL from utils.go:
split on newlines, trim each line, drop blank lines, join with a single
space, collapse repeated spaces, trim the result. -/
def cleanSQLChars (cs : List Char) : List Char :=
  trimChars (collapseSpaces (intercalateChars [' ']
    (((splitOnChar '\n' cs).map trimChars).filter (fun l => l ≠ []))))

/-- cleanSQL models cleanSQL from utils.go. -/
def cleanSQL (sql : String) : String :=
  String.mk (cleanSQLChars sql.data)

/-- goTrimSpace models strings.TrimSpace on Lean strings. -/
def goTrimSpace (s : String) : String :=
  String.mk (trimChars s.data)

/-- goJoin models strings.Join. -/
def goJoin (sep : String) : List String → String
  | [] => ""
  | [x] => x
  | x :: xs => x ++ sep ++ goJoin sep xs

/-- upperOpOf models strings.ToUpper(strings.TrimSpace(op)) as used by
buildSqlPlaceholder for operator dispatch (the operators involved are
ASCII, where Char.toUpper agrees with Go). -/
def upperOpOf (op : String) : String :=
  String.mk ((trimChars op.data).map Char.toUpper)

/-- GoVal models the dynamic Go value (interface with any content) that
flows through the engine. The constructors cover the shapes the type
switches in funcs.go and utils.go distinguish: nil, bool, float64,
int64, int, string, the slice types of the buildExpr switch, and maps.
Documents parsed from JSON by gjson only use vnil, vbool, vfloat, vstr,
varrAny and vmap (gjson numbers are float64); the remaining constructors
keep the other arms of the Go type switches representable. The float64
payload is modelled as a rational, which is exact for every value the
claims exercise. -/
inductive GoVal where
  | vnil
  | vbool (b : Bool)
  | vfloat (q : Rat)
  | vint64 (n : Int)
  | vint (n : Int)
  | vstr (s : String)
  | varrAny (xs : List GoVal)
  | varrStr (xs : List String)
  | varrInt (xs : List Int)
  | varrInt64 (xs : List Int)
  | vmap (fields : List (String × GoVal))
deriving Repr

/-- ValidatorError models the ValidatorError struct of error.go. The Go
field Type is rendered typeTag because Type is a Lean keyword. -/
structure ValidatorError where
  typeTag : String
  fieldName : String
  code : String
  msg : String
  paths : String
deriving Repr, DecidableEq

/-- ErrValidatorRequired is the required tag constant of error.go. -/
def ErrValidatorRequired : String := "required"

/-- ErrValidatorTypeStr is the string tag constant of error.go. -/
def ErrValidatorTypeStr : String := "str"

/-- ErrValidatorTypeInt is the int tag constant of error.go. -/
def ErrValidatorTypeInt : String := "int"

/-- NewValidatorError models NewValidatorError of error.go, which leaves
Paths empty. -/
def NewValidatorError (typ fieldName code msg : String) : ValidatorError :=
  { typeTag := typ, fieldName := fieldName, code := code, msg := msg, paths := "" }

/-- setPaths models ValidatorError.SetPaths of error.go: store the dot
joined path. -/
def ValidatorError.setPaths (e : ValidatorError) (paths : List String) : ValidatorError :=
  { e with paths := goJoin "." paths }

/-- execState models the execState struct of funcs.go: the parsed JSON
document, the collected SQL arguments, the generation diagnostics and
the validator errors. -/
structure ExecState where
  data : GoVal
  args : List GoVal
  errors : List String
  validatorsErrors : List ValidatorError
deriving Repr

/-- SQLStmt models the SQLStmt result assembled by Engine.Execute in
qsql.go (the RawSQL field, a copy of the template source text, is not
modelled because templates are embedded as syntax trees). -/
structure SQLStmt where
  SQL : String
  Args : List GoVal
  Errors : List String
  ValidatorsErrors : List ValidatorError
deriving Repr

/-- getSeg resolves one dot separated gjson path segment against a value:
a key of an object, or a decimal index of an array. This models the
plain key/index fragment of the gjson path language, which is all the
engine relies on. -/
def getSeg (v : GoVal) (seg : String) : Option GoVal :=
  match v with
  | .vmap fields => (fields.find? (fun f => f.1 = seg)).map (fun f => f.2)
  | .varrAny xs =>
    match seg.toNat? with
    | some i => xs.get? i
    | none => none
  | _ => none

/-- gjsonGet models gjson Result.Get followed by Exists and Value on the
parsed document: split the path on dots and walk the document, returning
none when the path does not exist and some v (with v the dynamic value,
vnil for an explicit JSON null) when it does. -/
def gjsonGet (doc : GoVal) (path : String) : Option GoVal :=
  (splitOnChar '.' path.data).foldl
    (fun acc seg => acc.bind (fun v => getSeg v (String.mk seg))) (some doc)

/-- getValueByPath models getValueByPath of funcs.go: join the segments
with a dot, look the path up, and return the value together with the
existence flag ((nil, false) for an absent path). -/
def getValueByPath (state : ExecState) (paths : List String) : GoVal × Bool :=
  match gjsonGet state.data (goJoin "." paths) with
  | none => (GoVal.vnil, false)
  | some v => (v, true)

/-- getValueByPathForTemplate models getValueByPathForTemplate of
funcs.go, the getValue template function: return only the resolved
value, nil when the path does not exist. -/
def getValueByPathForTemplate (state : ExecState) (paths : List String) : GoVal :=
  (getValueByPath state paths).1

mutual

/-- formatGoVal models the default fmt verb rendering that the host
template language applies when an action prints a dynamic value, as a
bare getValue action does: nil prints the no-value marker, booleans and
strings print themselves, slices print bracketed space separated
elements and maps print bracketed key:value pairs. Numeric payloads are
rendered through toString as a stand-in for the Go float verb; neither
rendering ever produces a placeholder character, which is all the
placeholder counting argument relies on. -/
def formatGoVal : GoVal → String
  | .vnil => "<no value>"
  | .vbool b => if b then "true" else "false"
  | .vfloat q => toString q
  | .vint64 n => toString n
  | .vint n => toString n
  | .vstr s => s
  | .varrAny xs => "[" ++ goJoin " " (formatGoVals xs) ++ "]"
  | .varrStr xs => "[" ++ goJoin " " xs ++ "]"
  | .varrInt xs => "[" ++ goJoin " " (xs.map toString) ++ "]"
  | .varrInt64 xs => "[" ++ goJoin " " (xs.map toString) ++ "]"
  | .vmap fields => "map[" ++ goJoin " " (formatGoValFields fields) ++ "]"

/-- formatGoVals renders the elements of a printed slice. -/
def formatGoVals : List GoVal → List String
  | [] => []
  | v :: vs => formatGoVal v :: formatGoVals vs

/-- formatGoValFields renders the entries of a printed map. -/
def formatGoValFields : List (String × GoVal) → List String
  | [] => []
  | (k, v) :: fs => (k ++ ":" ++ formatGoVal v) :: formatGoValFields fs

end

/-- valFunc models valFunc of funcs.go: append the resolved value (nil
when absent) to the argument list and return a bare placeholder. -/
def valFunc (state : ExecState) (paths : List String) : String × ExecState :=
  ("?", { state with args := state.args ++ [(getValueByPath state paths).1] })

/-- buildSqlPlaceholder models buildSqlPlaceholder of funcs.go: dispatch
on the trimmed uppercased operator, expanding IN and NOT IN over every
value, BETWEEN and NOT BETWEEN over the first two (a diagnostic and an
empty fragment when fewer than two are supplied), and any other operator
over the first value only. The empty values arm of the default branch is
unreachable from the callers in funcs.go, which always pass a non empty
list. -/
def buildSqlPlaceholder (state : ExecState) (field op : String) (values : List GoVal) :
    String × ExecState :=
  let upperOp := upperOpOf op
  if upperOp = "IN" ∨ upperOp = "NOT IN" then
    (field ++ " " ++ op ++ " (" ++ goJoin ", " (values.map (fun _ => "?")) ++ ")",
      { state with args := state.args ++ values })
  else if upperOp = "BETWEEN" ∨ upperOp = "NOT BETWEEN" then
    match values with
    | v0 :: v1 :: _ =>
      (field ++ " " ++ op ++ " ? AND ?", { state with args := state.args ++ [v0, v1] })
    | _ => ("", { state with errors := state.errors ++ ["between: not enough values"] })
  else
    match values with
    | v0 :: _ => (field ++ " " ++ op ++ " ?", { state with args := state.args ++ [v0] })
    | [] => ("", state)

/-- buildExpr models buildExpr of funcs.go: normalize the dynamic value
to a list (each slice type elementwise, anything else as a one element
list), and on an empty list either synthesize a single nil value when
required or render nothing when optional. -/
def buildExpr (state : ExecState) (field op : String) (required : Bool) (val : GoVal) :
    String × ExecState :=
  let values : List GoVal :=
    match val with
    | .varrAny xs => xs
    | .varrStr xs => xs.map GoVal.vstr
    | .varrInt xs => xs.map GoVal.vint
    | .varrInt64 xs => xs.map GoVal.vint64
    | v => [v]
  match values with
  | [] =>
    if required then buildSqlPlaceholder state field op [GoVal.vnil]
    else ("", state)
  | _ => buildSqlPlaceholder state field op values

/-- exprRaw models exprRaw of funcs.go: paths carries the positional
template arguments (field, operator, then the value path). No arguments
renders nothing; one or two arguments record a diagnostic and build the
expression over a nil value; otherwise the value is resolved and a
diagnostic recorded when it is absent and the expression required. -/
def exprRaw (state : ExecState) (required : Bool) (paths : List String) : String × ExecState :=
  let field := paths.getD 0 ""
  let op := paths.getD 1 ""
  if paths.length < 1 then ("", state)
  else if paths.length < 3 then
    buildExpr { state with errors := state.errors ++ ["expr: no values"] } field op required
      GoVal.vnil
  else
    let realPaths := paths.drop 2
    let (val, ok) := getValueByPath state realPaths
    let state' :=
      if !ok && required then { state with errors := state.errors ++ ["expr: no values"] }
      else state
    buildExpr state' field op required val

/-- exprFunc models exprFunc of funcs.go, the required expression. -/
def exprFunc (state : ExecState) (paths : List String) : String × ExecState :=
  exprRaw state true paths

/-- optionalExprFunc models optionalExprFunc of funcs.go, the optional
expression. -/
def optionalExprFunc (state : ExecState) (paths : List String) : String × ExecState :=
  exprRaw state false paths

/-- andOrFunc models andOrFunc of funcs.go: trim every condition, keep
the non blank ones, and either record a diagnostic and render nothing or
join the survivors with the logic word and parenthesize. -/
def andOrFunc (state : ExecState) (logic : String) (conditions : List String) :
    String × ExecState :=
  let valid := (conditions.map goTrimSpace).filter (fun c => c ≠ "")
  if valid = [] then
    ("", { state with errors := state.errors ++ ["and: no valid conditions"] })
  else
    ("(" ++ goJoin (" " ++ logic ++ " ") valid ++ ")", state)

/-- andFunc models andFunc of funcs.go (its first string argument is
ignored by the source as well). -/
def andFunc (state : ExecState) (funcName : String) (conditions : List String) :
    String × ExecState :=
  andOrFunc state "and" conditions

/-- orFunc models orFunc of funcs.go. -/
def orFunc (state : ExecState) (conditions : List String) : String × ExecState :=
  andOrFunc state "or" conditions

/-- validatorIntFunc models validatorIntFunc of funcs.go: an absent path
passes; a present value that is not a Go int64 records one error tagged
ErrValidatorTypeInt. -/
def validatorIntFunc (state : ExecState) (fieldName code msg : String) (paths : List String) :
    String × ExecState :=
  let (val, ok) := getValueByPath state paths
  if !ok then ("", state)
  else
    match val with
    | .vint64 _ => ("", state)
    | _ =>
      ("", { state with validatorsErrors := state.validatorsErrors ++
        [(NewValidatorError ErrValidatorTypeInt fieldName code msg).setPaths paths] })

/-- validatorFloatFunc models validatorFloatFunc of funcs.go: an absent
path passes; a present value that is not a Go float64 records one error,
tagged with ErrValidatorTypeInt exactly as in the source. -/
def validatorFloatFunc (state : ExecState) (fieldName code msg : String) (paths : List String) :
    String × ExecState :=
  let (val, ok) := getValueByPath state paths
  if !ok then ("", state)
  else
    match val with
    | .vfloat _ => ("", state)
    | _ =>
      ("", { state with validatorsErrors := state.validatorsErrors ++
        [(NewValidatorError ErrValidatorTypeInt fieldName code msg).setPaths paths] })

/-- validatorRequiredFunc models validatorRequiredFunc of funcs.go: an
error tagged ErrValidatorRequired is recorded exactly when the path does
not exist. -/
def validatorRequiredFunc (state : ExecState) (fieldName code msg : String)
    (paths : List String) : String × ExecState :=
  let (_, ok) := getValueByPath state paths
  if !ok then
    ("", { state with validatorsErrors := state.validatorsErrors ++
      [(NewValidatorError ErrValidatorRequired fieldName code msg).setPaths paths] })
  else ("", state)

/-- validatorStrFunc models validatorStrFunc of funcs.go. -/
def validatorStrFunc (state : ExecState) (fieldName code msg : String) (paths : List String) :
    String × ExecState :=
  let (val, ok) := getValueByPath state paths
  if !ok then ("", state)
  else
    match val with
    | .vstr _ => ("", state)
    | _ =>
      ("", { state with validatorsErrors := state.validatorsErrors ++
        [(NewValidatorError ErrValidatorTypeStr fieldName code msg).setPaths paths] })

/-- SExpr is the syntax of the template actions of the engine vocabulary
registered by Engine.Parse in qsql.go: string literals, val, expr,
optExpr, the and combinator (whose first positional argument is bound to
the funcName parameter that the registered andFunc discards, and may be
an arbitrary nested expression whose side effects survive), the or
combinator, a printed getValue, and the validator functions. The isEmpty
and printf helpers and the control constructs of the host template
language are not modelled; the placeholder claims quantify over
templates built from this vocabulary. -/
inductive SExpr where
  | lit (s : String)
  | val (paths : List String)
  | expr (paths : List String)
  | optExpr (paths : List String)
  | andF (fn : SExpr) (conds : List SExpr)
  | orE (conds : List SExpr)
  | getValue (paths : List String)
  | vRequired (fieldName code msg : String) (paths : List String)
  | vInt (fieldName code msg : String) (paths : List String)
  | vFloat (fieldName code msg : String) (paths : List String)
  | vStr (fieldName code msg : String) (paths : List String)
deriving Repr

/-- Node is one piece of a parsed template: literal text between actions
or one action. A parsed template is a list of nodes. -/
inductive Node where
  | text (s : String)
  | action (e : SExpr)
deriving Repr

mutual

/-- evalSExpr renders one template expression against the execution
state, returning the produced fragment and the updated state, exactly as
the corresponding funcs.go function would. -/
def evalSExpr (state : ExecState) : SExpr → String × ExecState
  | .lit s => (s, state)
  | .val paths => valFunc state paths
  | .expr paths => exprRaw state true paths
  | .optExpr paths => exprRaw state false paths
  | .andF fn conds =>
    let (fnStr, st1) := evalSExpr state fn
    let (ss, st2) := evalList st1 conds
    andFunc st2 fnStr ss
  | .orE conds =>
    let (ss, st) := evalList state conds
    orFunc st ss
  | .getValue paths => (formatGoVal (getValueByPathForTemplate state paths), state)
  | .vRequired f c m paths => validatorRequiredFunc state f c m paths
  | .vInt f c m paths => validatorIntFunc state f c m paths
  | .vFloat f c m paths => validatorFloatFunc state f c m paths
  | .vStr f c m paths => validatorStrFunc state f c m paths

/-- evalList renders the arguments of a combinator left to right,
threading the state, matching the evaluation order of the host template
language. -/
def evalList (state : ExecState) : List SExpr → List String × ExecState
  | [] => ([], state)
  | e :: es =>
    let (s, st) := evalSExpr state e
    let (ss, st') := evalList st es
    (s :: ss, st')

end

/-- renderNodes renders a whole template left to right, concatenating
literal text and action output. -/
def renderNodes (state : ExecState) : List Node → String × ExecState
  | [] => ("", state)
  | .text s :: ns =>
    let (r, st) := renderNodes state ns
    (s ++ r, st)
  | .action e :: ns =>
    let (s, st) := evalSExpr state e
    let (r, st') := renderNodes st ns
    (s ++ r, st')

/-- Execute models Engine.Execute of qsql.go after the JSON validity
check: the document stands for the gjson parse of a syntactically valid
parameter JSON, a fresh execution state is created, the template is
rendered, and the result is assembled with cleanSQL applied to the
rendered text. -/
def Execute (tmpl : List Node) (doc : GoVal) : SQLStmt :=
  let state : ExecState := { data := doc, args := [], errors := [], validatorsErrors := [] }
  let (out, st) := renderNodes state tmpl
  { SQL := cleanSQL out, Args := st.args, Errors := st.errors,
    ValidatorsErrors := st.validatorsErrors }

/-- countQ counts the placeholder characters of a fragment. -/
def countQ (s : String) : Nat :=
  s.data.count '?'

/-- noQB tests that a string contains no placeholder character. -/
def noQB (s : String) : Bool :=
  s.data.all (fun c => c ≠ '?')

/-- isLitB tests that an expression is a bare string literal. -/
def isLitB : SExpr → Bool
  | .lit _ => true
  | _ => false

mutual

/-- cleanSExprB tests that an expression injects no stray placeholder
character and appends no argument whose placeholder is dropped: its
literals and its expression fields and operators are free of the
placeholder character, no getValue action occurs (it prints document
text that can contain a placeholder character without binding an
argument), and the first argument of every and call is a string literal
(the registered andFunc discards that argument's rendered text while
its side effects on the argument list survive). -/
def cleanSExprB : SExpr → Bool
  | .lit s => noQB s
  | .val _ => true
  | .expr paths => noQB (paths.getD 0 "") && noQB (paths.getD 1 "")
  | .optExpr paths => noQB (paths.getD 0 "") && noQB (paths.getD 1 "")
  | .andF fn conds => isLitB fn && cleanListB conds
  | .orE conds => cleanListB conds
  | .getValue _ => false
  | .vRequired _ _ _ _ => true
  | .vInt _ _ _ _ => true
  | .vFloat _ _ _ _ => true
  | .vStr _ _ _ _ => true

/-- cleanListB tests cleanSExprB on every element. -/
def cleanListB : List SExpr → Bool
  | [] => true
  | e :: es => cleanSExprB e && cleanListB es

end

/-- cleanNodeB tests that a node injects no stray placeholder character:
literal text free of the placeholder character, actions clean. -/
def cleanNodeB : Node → Bool
  | .text s => noQB s
  | .action e => cleanSExprB e

/-- cleanTmplB tests cleanNodeB on every node of a template. -/
def cleanTmplB : List Node → Bool
  | [] => true
  | n :: ns => cleanNodeB n && cleanTmplB ns

/-- mkState is the fresh execution state Engine.Execute creates for a
parsed document. -/
def mkState (doc : GoVal) : ExecState :=
  { data := doc, args := [], errors := [], validatorsErrors := [] }

end QSql

namespace QSql

/-! Character level lemmas about the Output Formatter building blocks. -/

theorem replaceDouble_length_le (cs : List Char) : (replaceDouble cs).length ≤ cs.length := by
  induction cs using replaceDouble.induct with
  | case1 => simp [replaceDouble]
  | case2 c => simp [replaceDouble]
  | case3 c1 c2 rest hsp ih =>
    simp only [replaceDouble, if_pos hsp, List.length_cons]
    omega
  | case4 c1 c2 rest hsp ih =>
    simp only [replaceDouble, if_neg hsp, List.length_cons] at ih ⊢
    omega

theorem replaceDouble_length_lt (cs : List Char) (h : containsDouble cs = true) :
    (replaceDouble cs).length < cs.length := by
  induction cs using replaceDouble.induct with
  | case1 => simp [containsDouble] at h
  | case2 c => simp [containsDouble] at h
  | case3 c1 c2 rest hsp ih =>
    have := replaceDouble_length_le rest
    simp only [replaceDouble, if_pos hsp, List.length_cons]
    omega
  | case4 c1 c2 rest hsp ih =>
    simp only [containsDouble, Bool.or_eq_true, Bool.and_eq_true, beq_iff_eq] at h
    rcases h with ⟨h1, h2⟩ | h
    · exact absurd ⟨h1, h2⟩ hsp
    · have := ih h
      simp only [replaceDouble, if_neg hsp, List.length_cons] at *
      omega

theorem replaceDouble_mem {c : Char} {cs : List Char} (h : c ∈ replaceDouble cs) : c ∈ cs := by
  induction cs using replaceDouble.induct with
  | case1 => simpa [replaceDouble] using h
  | case2 d => simpa [replaceDouble] using h
  | case3 c1 c2 rest hsp ih =>
    simp only [replaceDouble, if_pos hsp, List.mem_cons] at h
    rcases h with h | h
    · simp [hsp.1, h]
    · simp [ih h]
  | case4 c1 c2 rest hsp ih =>
    simp only [replaceDouble, if_neg hsp, List.mem_cons] at h
    rcases h with h | h
    · simp [h]
    · have := ih h
      simp only [List.mem_cons] at this ⊢
      tauto

theorem replaceDouble_count {c : Char} (hc : c ≠ ' ') (cs : List Char) :
    (replaceDouble cs).count c = cs.count c := by
  induction cs using replaceDouble.induct with
  | case1 => simp [replaceDouble]
  | case2 d => simp [replaceDouble]
  | case3 c1 c2 rest hsp ih =>
    obtain ⟨h1, h2⟩ := hsp
    subst h1
    subst h2
    simp only [replaceDouble, if_pos (And.intro rfl rfl)]
    simp [List.count_cons, ih, (Ne.symm hc)]
  | case4 c1 c2 rest hsp ih =>
    simp only [replaceDouble, if_neg hsp]
    simp only [List.count_cons] at ih ⊢
    omega

theorem collapseFuel_of_neg (n : Nat) (cs : List Char) (h : containsDouble cs = false) :
    collapseFuel n cs = cs := by
  cases n with
  | zero => rfl
  | succ n => simp [collapseFuel, h]

theorem collapseFuel_no_double (n : Nat) :
    ∀ cs : List Char, cs.length ≤ n → containsDouble (collapseFuel n cs) = false := by
  induction n with
  | zero =>
    intro cs hlen
    have : cs = [] := List.eq_nil_of_length_eq_zero (Nat.le_zero.mp hlen)
    subst this
    rfl
  | succ n ih =>
    intro cs hlen
    by_cases h : containsDouble cs = true
    · have hlt := replaceDouble_length_lt cs h
      simp only [collapseFuel, h, if_true]
      exact ih _ (by omega)
    · simp only [Bool.not_eq_true] at h
      simpa [collapseFuel, h] using h

theorem collapseFuel_mem (n : Nat) :
    ∀ {c : Char} {cs : List Char}, c ∈ collapseFuel n cs → c ∈ cs := by
  induction n with
  | zero => intro c cs h; exact h
  | succ n ih =>
    intro c cs h
    by_cases hd : containsDouble cs = true
    · simp only [collapseFuel, hd, if_true] at h
      exact replaceDouble_mem (ih h)
    · simp only [Bool.not_eq_true] at hd
      simpa [collapseFuel, hd] using h

theorem collapseFuel_count {c : Char} (hc : c ≠ ' ') (n : Nat) :
    ∀ cs : List Char, (collapseFuel n cs).count c = cs.count c := by
  induction n with
  | zero => intro cs; rfl
  | succ n ih =>
    intro cs
    by_cases hd : containsDouble cs = true
    · simp only [collapseFuel, hd, if_true]
      rw [ih, replaceDouble_count hc]
    · simp only [Bool.not_eq_true] at hd
      simp [collapseFuel, hd]

theorem collapseSpaces_no_double (cs : List Char) :
    containsDouble (collapseSpaces cs) = false :=
  collapseFuel_no_double cs.length cs (Nat.le_refl _)

theorem collapseSpaces_of_neg {cs : List Char} (h : containsDouble cs = false) :
    collapseSpaces cs = cs :=
  collapseFuel_of_neg _ _ h

theorem collapseSpaces_mem {c : Char} {cs : List Char} (h : c ∈ collapseSpaces cs) : c ∈ cs :=
  collapseFuel_mem _ h

theorem collapseSpaces_count {c : Char} (hc : c ≠ ' ') (cs : List Char) :
    (collapseSpaces cs).count c = cs.count c :=
  collapseFuel_count hc _ cs

theorem dropWhile_cons_not {α : Type} (p : α → Bool) (l : List α) (c : α) (t : List α)
    (h : l.dropWhile p = c :: t) : p c = false := by
  induction l with
  | nil => simp at h
  | cons a l ih =>
    rw [List.dropWhile_cons] at h
    split at h
    · exact ih h
    · cases h
      simp_all

theorem dropWhile_eq_self_of_head {α : Type} (p : α → Bool) (l : List α)
    (h : ∀ c t, l = c :: t → p c = false) : l.dropWhile p = l := by
  cases l with
  | nil => rfl
  | cons a l =>
    rw [List.dropWhile_cons, h a l rfl]
    simp

theorem dropWhile_count {α : Type} [DecidableEq α] (p : α → Bool) {c : α} (hc : p c = false)
    (l : List α) : (l.dropWhile p).count c = l.count c := by
  induction l with
  | nil => rfl
  | cons a l ih =>
    rw [List.dropWhile_cons]
    split
    · have hac : ¬(a = c) := by
        intro h
        subst h
        simp_all
      rw [ih, List.count_cons]
      simp [hac]
    · rfl

theorem dropWhile_suffix_decomp {α : Type} (p : α → Bool) (l : List α) :
    ∃ s, s ++ l.dropWhile p = l := by
  obtain ⟨s, hs⟩ := List.dropWhile_suffix (l := l) p
  exact ⟨s, hs⟩

theorem trimChars_mem {c : Char} {cs : List Char} (h : c ∈ trimChars cs) : c ∈ cs := by
  unfold trimChars at h
  rw [List.mem_reverse] at h
  have h1 := (List.dropWhile_suffix goIsSpace).mem h
  rw [List.mem_reverse] at h1
  exact (List.dropWhile_suffix goIsSpace).mem h1

theorem trimChars_count {c : Char} (hc : goIsSpace c = false) (cs : List Char) :
    (trimChars cs).count c = cs.count c := by
  unfold trimChars
  rw [List.count_reverse, dropWhile_count _ hc, List.count_reverse, dropWhile_count _ hc]

theorem trimChars_head_not (cs : List Char) (c : Char) (t : List Char)
    (h : trimChars cs = c :: t) : goIsSpace c = false := by
  unfold trimChars at h
  obtain ⟨s, hs⟩ :=
    dropWhile_suffix_decomp goIsSpace ((cs.dropWhile goIsSpace).reverse)
  have hrev : cs.dropWhile goIsSpace =
      ((cs.dropWhile goIsSpace).reverse.dropWhile goIsSpace).reverse ++ s.reverse := by
    have := congrArg List.reverse hs
    simpa [List.reverse_append] using this.symm
  rw [h] at hrev
  exact dropWhile_cons_not goIsSpace cs c (t ++ s.reverse) (by simpa using hrev)

theorem trimChars_revhead_not (cs : List Char) (c : Char) (t : List Char)
    (h : (trimChars cs).reverse = c :: t) : goIsSpace c = false := by
  unfold trimChars at h
  rw [List.reverse_reverse] at h
  exact dropWhile_cons_not goIsSpace _ c t h

theorem trimChars_idem (cs : List Char) : trimChars (trimChars cs) = trimChars cs := by
  have h1 : (trimChars cs).dropWhile goIsSpace = trimChars cs :=
    dropWhile_eq_self_of_head _ _ (fun c t h => trimChars_head_not cs c t h)
  have h2 : (trimChars cs).reverse.dropWhile goIsSpace = (trimChars cs).reverse :=
    dropWhile_eq_self_of_head _ _ (fun c t h => trimChars_revhead_not cs c t h)
  show ((((trimChars cs).dropWhile goIsSpace).reverse.dropWhile goIsSpace)).reverse = trimChars cs
  rw [h1, h2, List.reverse_reverse]

theorem containsDouble_cons₂ (a b : Char) (r : List Char) :
    containsDouble (a :: b :: r) = ((a == ' ' && b == ' ') || containsDouble (b :: r)) := rfl

theorem containsDouble_append_right (s t : List Char) (h : containsDouble t = true) :
    containsDouble (s ++ t) = true := by
  induction s with
  | nil => simpa using h
  | cons a s ih =>
    have hcons : (a :: s) ++ t = a :: (s ++ t) := rfl
    rw [hcons]
    cases hsp : s ++ t with
    | nil =>
      exfalso
      have ht : t = [] := (List.append_eq_nil.mp hsp).2
      subst ht
      simp [containsDouble] at h
    | cons b r =>
      rw [containsDouble_cons₂, Bool.or_eq_true]
      right
      rw [← hsp]
      exact ih

theorem containsDouble_append_left (s t : List Char) (h : containsDouble s = true) :
    containsDouble (s ++ t) = true := by
  induction s using containsDouble.induct with
  | case1 => simp [containsDouble] at h
  | case2 c => simp [containsDouble] at h
  | case3 c1 c2 rest ih =>
    simp only [containsDouble, Bool.or_eq_true] at h
    show containsDouble (c1 :: c2 :: (rest ++ t)) = true
    simp only [containsDouble, Bool.or_eq_true]
    rcases h with h | h
    · exact Or.inl h
    · exact Or.inr (ih h)

theorem trimChars_no_double {cs : List Char} (h : containsDouble cs = false) :
    containsDouble (trimChars cs) = false := by
  obtain ⟨s1, hs1⟩ := dropWhile_suffix_decomp goIsSpace cs
  obtain ⟨s2, hs2⟩ := dropWhile_suffix_decomp goIsSpace ((cs.dropWhile goIsSpace).reverse)
  have hd : cs.dropWhile goIsSpace = trimChars cs ++ s2.reverse := by
    have := congrArg List.reverse hs2
    simpa [trimChars, List.reverse_append] using this.symm
  by_contra hcd
  simp only [Bool.not_eq_false] at hcd
  have h1 : containsDouble (cs.dropWhile goIsSpace) = true := by
    rw [hd]
    exact containsDouble_append_left _ _ hcd
  have h2 : containsDouble cs = true := by
    rw [← hs1]
    exact containsDouble_append_right _ _ h1
  rw [h2] at h
  simp at h

theorem splitOnChar_ne_nil (sep : Char) (cs : List Char) : splitOnChar sep cs ≠ [] := by
  cases cs with
  | nil => simp [splitOnChar]
  | cons c rest =>
    rw [splitOnChar]
    split
    · simp
    · split <;> simp

theorem splitOnChar_no_sep (sep : Char) (cs : List Char) (h : sep ∉ cs) :
    splitOnChar sep cs = [cs] := by
  induction cs with
  | nil => rfl
  | cons c rest ih =>
    simp only [List.mem_cons, not_or] at h
    rw [splitOnChar, if_neg (fun hc => h.1 hc.symm), ih h.2]

theorem mem_splitOnChar_not (sep : Char) (cs : List Char) (l : List Char)
    (h : l ∈ splitOnChar sep cs) : sep ∉ l := by
  induction cs generalizing l with
  | nil =>
    simp only [splitOnChar, List.mem_singleton] at h
    subst h
    simp
  | cons c rest ih =>
    rw [splitOnChar] at h
    split at h
    · rcases List.mem_cons.mp h with h | h
      · subst h; simp
      · exact ih l h
    · rename_i hcsep
      cases hsp : splitOnChar sep rest with
      | nil => exact absurd hsp (splitOnChar_ne_nil sep rest)
      | cons hd tl =>
        rw [hsp] at h
        rcases List.mem_cons.mp h with h | h
        · subst h
          intro hmem
          rcases List.mem_cons.mp hmem with h | h
          · exact hcsep h.symm
          · exact ih hd (by rw [hsp]; exact List.mem_cons_self _ _) h
        · exact ih l (by rw [hsp]; exact List.mem_cons_of_mem _ h)

theorem splitOnChar_count_sum (sep : Char) {c : Char} (hc : c ≠ sep) (cs : List Char) :
    ((splitOnChar sep cs).map (fun l => l.count c)).sum = cs.count c := by
  induction cs with
  | nil => simp [splitOnChar]
  | cons a rest ih =>
    rw [splitOnChar]
    split
    · rename_i hasep
      subst hasep
      simp only [List.map_cons, List.sum_cons, List.count_nil, List.count_cons, ih]
      have : ¬(a = c) := fun h => hc h.symm
      simp [this]
    · rename_i hasep
      cases hsp : splitOnChar sep rest with
      | nil => exact absurd hsp (splitOnChar_ne_nil sep rest)
      | cons hd tl =>
        rw [hsp] at ih
        simp only [List.map_cons, List.sum_cons, List.count_cons] at ih ⊢
        omega

theorem intercalateChars_count (sep : List Char) {c : Char} (hc : c ∉ sep)
    (ls : List (List Char)) :
    (intercalateChars sep ls).count c = (ls.map (fun l => l.count c)).sum := by
  induction ls with
  | nil => rfl
  | cons x xs ih =>
    cases xs with
    | nil => simp [intercalateChars]
    | cons y ys =>
      show (x ++ sep ++ intercalateChars sep (y :: ys)).count c = _
      rw [List.count_append, List.count_append, ih]
      have : sep.count c = 0 := List.count_eq_zero.mpr hc
      simp [this]

theorem mem_intercalateChars {sep : List Char} {ls : List (List Char)} {c : Char}
    (h : c ∈ intercalateChars sep ls) : c ∈ sep ∨ ∃ l ∈ ls, c ∈ l := by
  induction ls with
  | nil => simp [intercalateChars] at h
  | cons x xs ih =>
    cases xs with
    | nil =>
      simp only [intercalateChars] at h
      exact Or.inr ⟨x, List.mem_singleton_self x, h⟩
    | cons y ys =>
      have h' : c ∈ x ++ sep ++ intercalateChars sep (y :: ys) := h
      rw [List.mem_append, List.mem_append] at h'
      rcases h' with (h' | h') | h'
      · exact Or.inr ⟨x, List.mem_cons_self _ _, h'⟩
      · exact Or.inl h'
      · rcases ih h' with h'' | ⟨l, hl, hcl⟩
        · exact Or.inl h''
        · exact Or.inr ⟨l, List.mem_cons_of_mem _ hl, hcl⟩

theorem sum_count_filter_ne_nil (c : Char) (ls : List (List Char)) :
    ((ls.filter (fun l => l ≠ [])).map (fun l => l.count c)).sum =
      (ls.map (fun l => l.count c)).sum := by
  induction ls with
  | nil => rfl
  | cons x xs ih =>
    by_cases hx : x = []
    · subst hx
      rw [List.filter_cons_of_neg (by simp)]
      simpa using ih
    · rw [List.filter_cons_of_pos (by simp [hx])]
      simp only [List.map_cons, List.sum_cons]
      rw [ih]

/-! Lemmas about the whole Output Formatter pipeline. -/

theorem cleanSQLChars_no_nl (cs : List Char) : '\n' ∉ cleanSQLChars cs := by
  intro h
  have h1 := trimChars_mem h
  have h2 := collapseSpaces_mem h1
  rcases mem_intercalateChars h2 with hsep | ⟨l, hl, hcl⟩
  · simp at hsep
  · rw [List.mem_filter] at hl
    obtain ⟨hl, _⟩ := hl
    rw [List.mem_map] at hl
    obtain ⟨line, hline, rfl⟩ := hl
    exact mem_splitOnChar_not '\n' cs line hline (trimChars_mem hcl)

theorem cleanSQLChars_no_double (cs : List Char) :
    containsDouble (cleanSQLChars cs) = false :=
  trimChars_no_double (collapseSpaces_no_double _)

theorem cleanSQLChars_trim (cs : List Char) :
    trimChars (cleanSQLChars cs) = cleanSQLChars cs :=
  trimChars_idem _

theorem cleanSQLChars_idem (cs : List Char) :
    cleanSQLChars (cleanSQLChars cs) = cleanSQLChars cs := by
  have hnl : '\n' ∉ cleanSQLChars cs := cleanSQLChars_no_nl cs
  have htr : trimChars (cleanSQLChars cs) = cleanSQLChars cs := cleanSQLChars_trim cs
  have hnd : containsDouble (cleanSQLChars cs) = false := cleanSQLChars_no_double cs
  by_cases hemp : cleanSQLChars cs = []
  · rw [hemp]
    rfl
  · show trimChars (collapseSpaces (intercalateChars [' ']
      (((splitOnChar '\n' (cleanSQLChars cs)).map trimChars).filter (fun l => l ≠ [])))) = _
    rw [splitOnChar_no_sep _ _ hnl]
    simp only [List.map_cons, List.map_nil]
    rw [htr, List.filter_cons_of_pos (by simp [hemp]), List.filter_nil]
    show trimChars (collapseSpaces (cleanSQLChars cs)) = cleanSQLChars cs
    rw [collapseSpaces_of_neg hnd, htr]

theorem cleanSQLChars_count {c : Char} (hc : goIsSpace c = false) (cs : List Char) :
    (cleanSQLChars cs).count c = cs.count c := by
  have hcsp : c ≠ ' ' := by
    intro h
    subst h
    simp [goIsSpace] at hc
  have hcnl : c ≠ '\n' := by
    intro h
    subst h
    simp [goIsSpace] at hc
  show (trimChars (collapseSpaces (intercalateChars [' ']
    (((splitOnChar '\n' cs).map trimChars).filter (fun l => l ≠ []))))).count c = _
  rw [trimChars_count hc, collapseSpaces_count hcsp,
    intercalateChars_count _ (by simp [hcsp]), sum_count_filter_ne_nil, List.map_map]
  have hcomp : ((fun l : List Char => l.count c) ∘ trimChars) =
      (fun l : List Char => l.count c) := by
    funext l
    exact trimChars_count hc l
  rw [hcomp]
  exact splitOnChar_count_sum '\n' hcnl cs

theorem countQ_append (a b : String) : countQ (a ++ b) = countQ a + countQ b := by
  show ((a ++ b).data).count '?' = a.data.count '?' + b.data.count '?'
  rw [String.data_append, List.count_append]

theorem noQ_countQ {s : String} (h : noQB s = true) : countQ s = 0 := by
  rw [countQ, List.count_eq_zero]
  intro hmem
  rw [noQB, List.all_eq_true] at h
  have := h _ hmem
  simp at this

theorem countQ_goTrimSpace (s : String) : countQ (goTrimSpace s) = countQ s :=
  trimChars_count (by decide) s.data

theorem countQ_cleanSQL (s : String) : countQ (cleanSQL s) = countQ s :=
  cleanSQLChars_count (by decide) s.data

/-- C8: cleanSQL, the output formatter that splits on newlines, trims
each line, drops blank lines, joins with a single space, collapses
repeated spaces and trims, is idempotent on every input string. -/
theorem cleanSQL_idempotent (x : String) : cleanSQL (cleanSQL x) = cleanSQL x := by
  show String.mk (cleanSQLChars (String.mk (cleanSQLChars x.data)).data) = cleanSQL x
  rw [show (String.mk (cleanSQLChars x.data)).data = cleanSQLChars x.data from rfl,
    cleanSQLChars_idem]
  rfl

/-! Reduction lemmas for the Expression Builder. -/

theorem getValueByPath_none {state : ExecState} {paths : List String}
    (h : gjsonGet state.data (goJoin "." paths) = none) :
    getValueByPath state paths = (GoVal.vnil, false) := by
  unfold getValueByPath
  rw [h]

theorem getValueByPath_some {state : ExecState} {paths : List String} {v : GoVal}
    (h : gjsonGet state.data (goJoin "." paths) = some v) :
    getValueByPath state paths = (v, true) := by
  unfold getValueByPath
  rw [h]

theorem exprRaw_long (state : ExecState) (required : Bool) (field op r : String)
    (rs : List String) :
    exprRaw state required (field :: op :: r :: rs) =
      buildExpr
        (if (!(getValueByPath state (r :: rs)).2 && required) = true
          then { state with errors := state.errors ++ ["expr: no values"] }
          else state)
        field op required (getValueByPath state (r :: rs)).1 := by
  unfold exprRaw
  rw [if_neg (by simp), if_neg (by simp)]
  rfl

theorem exprRaw_missing_required (state : ExecState) (field op r : String) (rs : List String)
    (hmiss : gjsonGet state.data (goJoin "." (r :: rs)) = none) :
    exprRaw state true (field :: op :: r :: rs) =
      buildExpr { state with errors := state.errors ++ ["expr: no values"] } field op true
        GoVal.vnil := by
  rw [exprRaw_long, getValueByPath_none hmiss]
  rfl

theorem exprRaw_missing_optional (state : ExecState) (field op r : String) (rs : List String)
    (hmiss : gjsonGet state.data (goJoin "." (r :: rs)) = none) :
    exprRaw state false (field :: op :: r :: rs) =
      buildExpr state field op false GoVal.vnil := by
  rw [exprRaw_long, getValueByPath_none hmiss]
  rfl

theorem exprRaw_found (state : ExecState) (required : Bool) (field op r : String)
    (rs : List String) (v : GoVal)
    (hv : gjsonGet state.data (goJoin "." (r :: rs)) = some v) :
    exprRaw state required (field :: op :: r :: rs) = buildExpr state field op required v := by
  rw [exprRaw_long, getValueByPath_some hv]
  cases required <;> rfl

theorem buildExpr_vnil (state : ExecState) (field op : String) (required : Bool) :
    buildExpr state field op required GoVal.vnil =
      buildSqlPlaceholder state field op [GoVal.vnil] := rfl

theorem buildExpr_arr_cons (state : ExecState) (field op : String) (required : Bool)
    (x : GoVal) (xt : List GoVal) :
    buildExpr state field op required (GoVal.varrAny (x :: xt)) =
      buildSqlPlaceholder state field op (x :: xt) := rfl

theorem buildExpr_arr_nil_required (state : ExecState) (field op : String) :
    buildExpr state field op true (GoVal.varrAny []) =
      buildSqlPlaceholder state field op [GoVal.vnil] := rfl

theorem buildExpr_arr_nil_optional (state : ExecState) (field op : String) :
    buildExpr state field op false (GoVal.varrAny []) = ("", state) := rfl

theorem buildSqlPlaceholder_in (state : ExecState) (field op : String) (values : List GoVal)
    (h1 : upperOpOf op = "IN" ∨ upperOpOf op = "NOT IN") :
    buildSqlPlaceholder state field op values =
      (field ++ " " ++ op ++ " (" ++ goJoin ", " (values.map (fun _ => "?")) ++ ")",
        { state with args := state.args ++ values }) := by
  simp only [buildSqlPlaceholder]
  rw [if_pos h1]

theorem buildSqlPlaceholder_default (state : ExecState) (field op : String) (v0 : GoVal)
    (vs : List GoVal)
    (h1 : ¬(upperOpOf op = "IN" ∨ upperOpOf op = "NOT IN"))
    (h2 : ¬(upperOpOf op = "BETWEEN" ∨ upperOpOf op = "NOT BETWEEN")) :
    buildSqlPlaceholder state field op (v0 :: vs) =
      (field ++ " " ++ op ++ " ?", { state with args := state.args ++ [v0] }) := by
  simp only [buildSqlPlaceholder]
  rw [if_neg h1, if_neg h2]

theorem buildSqlPlaceholder_between_short (state : ExecState) (field op : String) (v0 : GoVal)
    (h1 : ¬(upperOpOf op = "IN" ∨ upperOpOf op = "NOT IN"))
    (h2 : upperOpOf op = "BETWEEN" ∨ upperOpOf op = "NOT BETWEEN") :
    buildSqlPlaceholder state field op [v0] =
      ("", { state with errors := state.errors ++ ["between: not enough values"] }) := by
  simp only [buildSqlPlaceholder]
  rw [if_neg h1, if_pos h2]

/-- C2 counterexample: the claim predicts that a required expr on a
missing path always emits one placeholder, one nil argument and one
diagnostic, for every operator; with a BETWEEN operator the code emits
an empty fragment, no argument and two diagnostics. -/
theorem claim2_counterexample :
    ¬(countQ (exprRaw (mkState (GoVal.vmap [])) true ["f", "BETWEEN", "params", "x"]).1 = 1 ∧
      (exprRaw (mkState (GoVal.vmap [])) true
        ["f", "BETWEEN", "params", "x"]).2.args.length = 1 ∧
      (exprRaw (mkState (GoVal.vmap [])) true
        ["f", "BETWEEN", "params", "x"]).2.errors.length = 1) := by
  intro h
  have h2 := h.2.2
  rw [show (exprRaw (mkState (GoVal.vmap [])) true
    ["f", "BETWEEN", "params", "x"]).2.errors =
      ["expr: no values", "between: not enough values"] from rfl] at h2
  simp at h2

/-- C2 amended: for every operator outside the BETWEEN family, a
required expr on a missing path emits a fragment with exactly one
placeholder, appends exactly one nil argument and exactly one
diagnostic (with a BETWEEN family operator it emits an empty fragment,
no argument and two diagnostics instead). -/
theorem claim2_required_missing_amended (state : ExecState) (field op : String)
    (realPaths : List String) (hrp : realPaths ≠ [])
    (hmiss : gjsonGet state.data (goJoin "." realPaths) = none)
    (hf : noQB field = true) (ho : noQB op = true)
    (hbet : ¬(upperOpOf op = "BETWEEN" ∨ upperOpOf op = "NOT BETWEEN")) :
    countQ (exprRaw state true (field :: op :: realPaths)).1 = 1 ∧
    (exprRaw state true (field :: op :: realPaths)).2.args = state.args ++ [GoVal.vnil] ∧
    (exprRaw state true (field :: op :: realPaths)).2.errors =
      state.errors ++ ["expr: no values"] := by
  obtain ⟨r, rs, rfl⟩ := List.exists_cons_of_ne_nil hrp
  rw [exprRaw_missing_required _ _ _ _ _ hmiss, buildExpr_vnil]
  by_cases hin : upperOpOf op = "IN" ∨ upperOpOf op = "NOT IN"
  · rw [buildSqlPlaceholder_in _ _ _ _ hin]
    refine ⟨?_, rfl, rfl⟩
    simp only [countQ_append, noQ_countQ hf, noQ_countQ ho]
    decide
  · rw [buildSqlPlaceholder_default _ _ _ _ _ hin hbet]
    refine ⟨?_, rfl, rfl⟩
    simp only [countQ_append, noQ_countQ hf, noQ_countQ ho]
    decide

/-- C3: on a missing path, the optional expression emits the same
fragment, the same arguments and the same validator errors as the
required expression; the two differ only in the generation diagnostics
the required variant adds. -/
theorem claim3_optExpr_matches_expr_on_missing (state : ExecState) (field op r : String)
    (rs : List String)
    (hmiss : gjsonGet state.data (goJoin "." (r :: rs)) = none) :
    (exprRaw state false (field :: op :: r :: rs)).1 =
      (exprRaw state true (field :: op :: r :: rs)).1 ∧
    (exprRaw state false (field :: op :: r :: rs)).2.args =
      (exprRaw state true (field :: op :: r :: rs)).2.args ∧
    (exprRaw state false (field :: op :: r :: rs)).2.validatorsErrors =
      (exprRaw state true (field :: op :: r :: rs)).2.validatorsErrors ∧
    ∃ extra,
      (exprRaw state false (field :: op :: r :: rs)).2.errors = state.errors ++ extra ∧
      (exprRaw state true (field :: op :: r :: rs)).2.errors =
        state.errors ++ ["expr: no values"] ++ extra := by
  rw [exprRaw_missing_required _ _ _ _ _ hmiss, exprRaw_missing_optional _ _ _ _ _ hmiss,
    buildExpr_vnil, buildExpr_vnil]
  by_cases hin : upperOpOf op = "IN" ∨ upperOpOf op = "NOT IN"
  · rw [buildSqlPlaceholder_in _ _ _ _ hin, buildSqlPlaceholder_in _ _ _ _ hin]
    exact ⟨rfl, rfl, rfl, [], by simp, by simp⟩
  · by_cases hbet : upperOpOf op = "BETWEEN" ∨ upperOpOf op = "NOT BETWEEN"
    · rw [buildSqlPlaceholder_between_short _ _ _ _ hin hbet,
        buildSqlPlaceholder_between_short _ _ _ _ hin hbet]
      refine ⟨rfl, rfl, rfl, ["between: not enough values"], rfl, ?_⟩
      simp
    · rw [buildSqlPlaceholder_default _ _ _ _ _ hin hbet,
        buildSqlPlaceholder_default _ _ _ _ _ hin hbet]
      exact ⟨rfl, rfl, rfl, [], by simp, by simp⟩

/-- C4 counterexample: the claim predicts that a malformed optional
expr appends no diagnostic (diagnostic if and only if required); the
code appends the diagnostic for the optional variant as well. -/
theorem claim4_counterexample :
    (exprRaw (mkState (GoVal.vmap [])) false ["f", "="]).2.errors ≠ [] := by
  intro h
  rw [show (exprRaw (mkState (GoVal.vmap [])) false ["f", "="]).2.errors =
    ["expr: no values"] from rfl] at h
  cases h

/-- C4 amended: an expr or optExpr call with one or two positional
arguments (and, when two are given, an operator outside the IN and
BETWEEN families) emits the fragment field op ? with one nil bound
argument and appends one diagnostic regardless of the variant; a call
with no positional arguments returns an empty fragment with no
argument and no diagnostic. -/
theorem claim4_short_call_amended (state : ExecState) (field op : String) (required : Bool)
    (hin : ¬(upperOpOf op = "IN" ∨ upperOpOf op = "NOT IN"))
    (hbet : ¬(upperOpOf op = "BETWEEN" ∨ upperOpOf op = "NOT BETWEEN")) :
    exprRaw state required [field, op] =
      (field ++ " " ++ op ++ " ?",
        { state with
          errors := state.errors ++ ["expr: no values"]
          args := state.args ++ [GoVal.vnil] }) ∧
    exprRaw state required [field] =
      (field ++ " " ++ "" ++ " ?",
        { state with
          errors := state.errors ++ ["expr: no values"]
          args := state.args ++ [GoVal.vnil] }) ∧
    exprRaw state required [] = ("", state) := by
  refine ⟨?_, ?_, by cases required <;> rfl⟩
  · have h1 : exprRaw state required [field, op] =
        buildExpr { state with errors := state.errors ++ ["expr: no values"] } field op
          required GoVal.vnil := by cases required <;> rfl
    rw [h1, buildExpr_vnil, buildSqlPlaceholder_default _ _ _ _ _ hin hbet]
  · have h1 : exprRaw state required [field] =
        buildExpr { state with errors := state.errors ++ ["expr: no values"] } field ""
          required GoVal.vnil := by cases required <;> rfl
    rw [h1, buildExpr_vnil, buildSqlPlaceholder_default _ _ _ _ _ (by decide) (by decide)]

/-- C5 counterexample: the claim predicts that an IN expr over an array
of N elements emits N placeholders and N arguments for every N; on an
existing empty array the required expr emits one nil placeholder and
one argument instead of zero. -/
theorem claim5_counterexample :
    ¬(countQ (exprRaw (mkState (GoVal.vmap [("params", GoVal.vmap [("ids",
        GoVal.varrAny [])])])) true ["id", "IN", "params", "ids"]).1 = 0 ∧
      (exprRaw (mkState (GoVal.vmap [("params", GoVal.vmap [("ids",
        GoVal.varrAny [])])])) true ["id", "IN", "params", "ids"]).2.args.length = 0) := by
  intro h
  have h2 := h.2
  rw [show (exprRaw (mkState (GoVal.vmap [("params", GoVal.vmap [("ids",
    GoVal.varrAny [])])])) true ["id", "IN", "params", "ids"]).2.args = [GoVal.vnil] from rfl]
    at h2
  simp at h2

/-- C5 amended: for a value resolving to an array with at least one
element and an operator in the IN family, expr emits the fragment
field OP (?, ?, ...) with one placeholder per element joined by a comma
and a space, the operator text verbatim, and appends exactly the array
elements in source order. -/
theorem claim5_in_array_amended (state : ExecState) (field op r : String) (rs : List String)
    (xs : List GoVal)
    (hval : gjsonGet state.data (goJoin "." (r :: rs)) = some (GoVal.varrAny xs))
    (hxs : xs ≠ [])
    (hop : upperOpOf op = "IN" ∨ upperOpOf op = "NOT IN") :
    exprRaw state true (field :: op :: r :: rs) =
      (field ++ " " ++ op ++ " (" ++ goJoin ", " (xs.map (fun _ => "?")) ++ ")",
        { state with args := state.args ++ xs }) := by
  rw [exprRaw_found _ _ _ _ _ _ _ hval]
  obtain ⟨x, xt, rfl⟩ := List.exists_cons_of_ne_nil hxs
  rw [buildExpr_arr_cons, buildSqlPlaceholder_in _ _ _ _ hop]

/-- C6: the and and or combinators trim every input fragment and drop
the blank ones; with no survivor they return an empty string and append
exactly one diagnostic, with one survivor they return it wrapped in
parentheses, and with two or more they return the survivors joined by
the logic word, in input order, wrapped in parentheses. -/
theorem claim6_and_or_spec (state : ExecState) (logic : String) (conditions : List String) :
    ((conditions.map goTrimSpace).filter (fun c => c ≠ "") = [] →
      andOrFunc state logic conditions =
        ("", { state with errors := state.errors ++ ["and: no valid conditions"] })) ∧
    (∀ x, (conditions.map goTrimSpace).filter (fun c => c ≠ "") = [x] →
      andOrFunc state logic conditions = ("(" ++ x ++ ")", state)) ∧
    (∀ x y rest, (conditions.map goTrimSpace).filter (fun c => c ≠ "") = x :: y :: rest →
      andOrFunc state logic conditions =
        ("(" ++ goJoin (" " ++ logic ++ " ") (x :: y :: rest) ++ ")", state)) := by
  refine ⟨?_, ?_, ?_⟩
  · intro h
    simp only [andOrFunc]
    rw [h, if_pos rfl]
  · intro x h
    simp only [andOrFunc]
    rw [h, if_neg (by simp)]
    rfl
  · intro x y rest h
    simp only [andOrFunc]
    rw [h, if_neg (by simp)]

/-- C7: the required presence validator appends a ValidatorError tagged
required exactly when the dot joined path does not exist; the resolver
distinguishes an absent path, which yields (nil, false), from an
explicit JSON null, which yields (nil, true) and therefore passes the
validator. -/
theorem claim7_validator_required_spec (state : ExecState) (fieldName code msg : String)
    (paths : List String) :
    (gjsonGet state.data (goJoin "." paths) = none →
      (validatorRequiredFunc state fieldName code msg paths).2 =
        { state with validatorsErrors := state.validatorsErrors ++
            [{ typeTag := ErrValidatorRequired, fieldName := fieldName, code := code,
               msg := msg, paths := goJoin "." paths }] }) ∧
    (∀ v, gjsonGet state.data (goJoin "." paths) = some v →
      (validatorRequiredFunc state fieldName code msg paths).2 = state) ∧
    (gjsonGet state.data (goJoin "." paths) = none →
      getValueByPath state paths = (GoVal.vnil, false)) ∧
    (gjsonGet state.data (goJoin "." paths) = some GoVal.vnil →
      getValueByPath state paths = (GoVal.vnil, true)) := by
  refine ⟨?_, ?_, fun h => getValueByPath_none h, fun h => getValueByPath_some h⟩
  · intro h
    simp only [validatorRequiredFunc]
    rw [getValueByPath_none h]
    rfl
  · intro v h
    simp only [validatorRequiredFunc]
    rw [getValueByPath_some h]
    rfl

/-- C10: on an existing path whose value is not a float64, the float
type validator appends exactly one ValidatorError whose type tag is
ErrValidatorTypeInt, the same tag the integer validator uses, and that
tag is the string int. -/
theorem claim10_validator_float_int_tag (state : ExecState) (fieldName code msg : String)
    (paths : List String) (v : GoVal)
    (hex : gjsonGet state.data (goJoin "." paths) = some v)
    (hnf : ∀ q, v ≠ GoVal.vfloat q) :
    (validatorFloatFunc state fieldName code msg paths).2.validatorsErrors =
      state.validatorsErrors ++
        [{ typeTag := ErrValidatorTypeInt, fieldName := fieldName, code := code, msg := msg,
           paths := goJoin "." paths }] ∧
    ErrValidatorTypeInt = "int" := by
  refine ⟨?_, rfl⟩
  simp only [validatorFloatFunc]
  rw [getValueByPath_some hex]
  cases v with
  | vfloat q => exact absurd rfl (hnf q)
  | vnil => rfl
  | vbool b => rfl
  | vint64 n => rfl
  | vint n => rfl
  | vstr s => rfl
  | varrAny xs => rfl
  | varrStr xs => rfl
  | varrInt xs => rfl
  | varrInt64 xs => rfl
  | vmap fields => rfl

theorem buildSqlPlaceholder_proj (state1 state2 : ExecState) (field op : String)
    (values : List GoVal) (hargs : state1.args = state2.args) :
    (buildSqlPlaceholder state1 field op values).1 =
      (buildSqlPlaceholder state2 field op values).1 ∧
    (buildSqlPlaceholder state1 field op values).2.args =
      (buildSqlPlaceholder state2 field op values).2.args := by
  simp only [buildSqlPlaceholder]
  by_cases hin : upperOpOf op = "IN" ∨ upperOpOf op = "NOT IN"
  · rw [if_pos hin, if_pos hin]
    exact ⟨rfl, by simp [hargs]⟩
  · rw [if_neg hin, if_neg hin]
    by_cases hbet : upperOpOf op = "BETWEEN" ∨ upperOpOf op = "NOT BETWEEN"
    · rw [if_pos hbet, if_pos hbet]
      cases values with
      | nil => exact ⟨rfl, hargs⟩
      | cons v0 vs =>
        cases vs with
        | nil => exact ⟨rfl, hargs⟩
        | cons v1 vt => exact ⟨rfl, by simp [hargs]⟩
    · rw [if_neg hbet, if_neg hbet]
      cases values with
      | nil => exact ⟨rfl, hargs⟩
      | cons v0 vs => exact ⟨rfl, by simp [hargs]⟩

theorem buildExpr_proj (state1 state2 : ExecState) (field op : String) (r1 r2 : Bool)
    (val : GoVal) (hargs : state1.args = state2.args)
    (h1 : val ≠ GoVal.varrAny []) (h2 : val ≠ GoVal.varrStr [])
    (h3 : val ≠ GoVal.varrInt []) (h4 : val ≠ GoVal.varrInt64 []) :
    (buildExpr state1 field op r1 val).1 = (buildExpr state2 field op r2 val).1 ∧
    (buildExpr state1 field op r1 val).2.args = (buildExpr state2 field op r2 val).2.args := by
  cases val with
  | varrAny xs =>
    cases xs with
    | nil => exact absurd rfl h1
    | cons x xt =>
      rw [buildExpr_arr_cons, buildExpr_arr_cons]
      exact buildSqlPlaceholder_proj _ _ _ _ _ hargs
  | varrStr xs =>
    cases xs with
    | nil => exact absurd rfl h2
    | cons x xt =>
      exact buildSqlPlaceholder_proj state1 state2 field op
        (GoVal.vstr x :: xt.map GoVal.vstr) hargs
  | varrInt xs =>
    cases xs with
    | nil => exact absurd rfl h3
    | cons x xt =>
      exact buildSqlPlaceholder_proj state1 state2 field op
        (GoVal.vint x :: xt.map GoVal.vint) hargs
  | varrInt64 xs =>
    cases xs with
    | nil => exact absurd rfl h4
    | cons x xt =>
      exact buildSqlPlaceholder_proj state1 state2 field op
        (GoVal.vint64 x :: xt.map GoVal.vint64) hargs
  | vnil => exact buildSqlPlaceholder_proj state1 state2 field op [GoVal.vnil] hargs
  | vbool b => exact buildSqlPlaceholder_proj state1 state2 field op [GoVal.vbool b] hargs
  | vfloat q => exact buildSqlPlaceholder_proj state1 state2 field op [GoVal.vfloat q] hargs
  | vint64 n => exact buildSqlPlaceholder_proj state1 state2 field op [GoVal.vint64 n] hargs
  | vint n => exact buildSqlPlaceholder_proj state1 state2 field op [GoVal.vint n] hargs
  | vstr s => exact buildSqlPlaceholder_proj state1 state2 field op [GoVal.vstr s] hargs
  | vmap fs => exact buildSqlPlaceholder_proj state1 state2 field op [GoVal.vmap fs] hargs

/-- C9: on an existing empty array with an operator outside the IN and
BETWEEN families, a required expr emits field op ? with one nil
argument while optExpr emits the empty string with no argument; and
this is the only shape on which the two variants can differ in fragment
or arguments: whenever the resolved value of a full length call is not
an empty array (of any slice type), the fragment and the arguments of
the required and the optional call coincide. -/
theorem claim9_optExpr_empty_array_divergence :
    (∀ (state : ExecState) (field op r : String) (rs : List String),
      gjsonGet state.data (goJoin "." (r :: rs)) = some (GoVal.varrAny []) →
      ¬(upperOpOf op = "IN" ∨ upperOpOf op = "NOT IN") →
      ¬(upperOpOf op = "BETWEEN" ∨ upperOpOf op = "NOT BETWEEN") →
      exprRaw state true (field :: op :: r :: rs) =
        (field ++ " " ++ op ++ " ?", { state with args := state.args ++ [GoVal.vnil] }) ∧
      exprRaw state false (field :: op :: r :: rs) = ("", state)) ∧
    (∀ (state : ExecState) (paths : List String),
      (∀ v, 3 ≤ paths.length →
        gjsonGet state.data (goJoin "." (paths.drop 2)) = some v →
        v ≠ GoVal.varrAny [] ∧ v ≠ GoVal.varrStr [] ∧ v ≠ GoVal.varrInt [] ∧
          v ≠ GoVal.varrInt64 []) →
      (exprRaw state true paths).1 = (exprRaw state false paths).1 ∧
      (exprRaw state true paths).2.args = (exprRaw state false paths).2.args) := by
  constructor
  · intro state field op r rs hval hin hbet
    constructor
    · rw [exprRaw_found _ _ _ _ _ _ _ hval, buildExpr_arr_nil_required,
        buildSqlPlaceholder_default _ _ _ _ _ hin hbet]
    · rw [exprRaw_found _ _ _ _ _ _ _ hval, buildExpr_arr_nil_optional]
  · intro state paths hyp
    rcases paths with _ | ⟨f, _ | ⟨o, _ | ⟨r, rs⟩⟩⟩
    · exact ⟨rfl, rfl⟩
    · exact ⟨rfl, rfl⟩
    · exact ⟨rfl, rfl⟩
    · cases hg : gjsonGet state.data (goJoin "." (r :: rs)) with
      | none =>
        rw [exprRaw_missing_required _ _ _ _ _ hg, exprRaw_missing_optional _ _ _ _ _ hg,
          buildExpr_vnil, buildExpr_vnil]
        exact buildSqlPlaceholder_proj _ _ _ _ _ rfl
      | some v =>
        rw [exprRaw_found _ true _ _ _ _ _ hg, exprRaw_found _ false _ _ _ _ _ hg]
        obtain ⟨h1, h2, h3, h4⟩ := hyp v (by simp) hg
        exact buildExpr_proj _ _ _ _ _ _ _ rfl h1 h2 h3 h4

/-! Placeholder counting: every placeholder character the engine emits
is matched by exactly one appended argument. -/

theorem countQ_placeholders (values : List GoVal) :
    countQ (goJoin ", " (values.map (fun _ => "?"))) = values.length := by
  induction values with
  | nil => rfl
  | cons v vs ih =>
    cases vs with
    | nil => rfl
    | cons w ws =>
      show countQ ("?" ++ ", " ++ goJoin ", " ((w :: ws).map (fun _ => "?"))) = _
      rw [countQ_append, countQ_append, ih]
      have e1 : countQ "?" = 1 := rfl
      have e2 : countQ ", " = 0 := rfl
      rw [e1, e2]
      simp only [List.length_cons]
      omega

theorem countQ_goJoin (sep : String) (hs : countQ sep = 0) (ls : List String) :
    countQ (goJoin sep ls) = (ls.map countQ).sum := by
  induction ls with
  | nil => rfl
  | cons x xs ih =>
    cases xs with
    | nil => simp [goJoin]
    | cons y ys =>
      show countQ (x ++ sep ++ goJoin sep (y :: ys)) = _
      rw [countQ_append, countQ_append, ih, hs]
      simp only [List.map_cons, List.sum_cons]
      omega

theorem countQ_zero_of_trim_blank {s : String} (h : goTrimSpace s = "") : countQ s = 0 := by
  have h2 : trimChars s.data = [] := congrArg String.data h
  have h3 := trimChars_count (c := '?') (by decide) s.data
  rw [h2] at h3
  simpa [countQ] using h3.symm

theorem sum_countQ_trim_filter (ss : List String) :
    (((ss.map goTrimSpace).filter (fun c => c ≠ "")).map countQ).sum =
      (ss.map countQ).sum := by
  induction ss with
  | nil => rfl
  | cons s ss ih =>
    rw [List.map_cons]
    by_cases hb : goTrimSpace s = ""
    · rw [List.filter_cons_of_neg (by simp [hb]), ih, List.map_cons, List.sum_cons,
        countQ_zero_of_trim_blank hb]
      omega
    · rw [List.filter_cons_of_pos (by simp [hb]), List.map_cons, List.sum_cons, ih,
        countQ_goTrimSpace, List.map_cons, List.sum_cons]

theorem andOrFunc_countQ (state : ExecState) (logic : String) (ss : List String)
    (hl : countQ logic = 0) :
    (andOrFunc state logic ss).2.args = state.args ∧
    countQ (andOrFunc state logic ss).1 = (ss.map countQ).sum := by
  simp only [andOrFunc]
  by_cases hv : (ss.map goTrimSpace).filter (fun c => c ≠ "") = []
  · rw [if_pos hv]
    refine ⟨rfl, ?_⟩
    have hsum := sum_countQ_trim_filter ss
    rw [hv] at hsum
    rw [show countQ "" = 0 from rfl]
    simpa using hsum
  · rw [if_neg hv]
    refine ⟨rfl, ?_⟩
    rw [countQ_append, countQ_append]
    have e1 : countQ "(" = 0 := rfl
    have e2 : countQ ")" = 0 := rfl
    have hsep : countQ (" " ++ logic ++ " ") = 0 := by
      rw [countQ_append, countQ_append, hl]
      rfl
    rw [e1, e2, countQ_goJoin _ hsep, sum_countQ_trim_filter]
    omega

theorem buildSqlPlaceholder_countQ (state : ExecState) (field op : String)
    (values : List GoVal) (hf : noQB field = true) (ho : noQB op = true) :
    (buildSqlPlaceholder state field op values).2.args.length =
      state.args.length + countQ (buildSqlPlaceholder state field op values).1 := by
  simp only [buildSqlPlaceholder]
  by_cases hin : upperOpOf op = "IN" ∨ upperOpOf op = "NOT IN"
  · rw [if_pos hin]
    simp only [List.length_append]
    rw [countQ_append, countQ_append, countQ_append, countQ_append, countQ_append,
      noQ_countQ hf, noQ_countQ ho, countQ_placeholders]
    have e1 : countQ " " = 0 := rfl
    have e2 : countQ " (" = 0 := rfl
    have e3 : countQ ")" = 0 := rfl
    rw [e1, e2, e3]
    omega
  · rw [if_neg hin]
    by_cases hbet : upperOpOf op = "BETWEEN" ∨ upperOpOf op = "NOT BETWEEN"
    · rw [if_pos hbet]
      cases values with
      | nil =>
        have e : countQ "" = 0 := rfl
        simp [e]
      | cons v0 vs =>
        cases vs with
        | nil =>
          have e : countQ "" = 0 := rfl
          simp [e]
        | cons v1 vt =>
          simp only [List.length_append, List.length_cons, List.length_nil]
          rw [countQ_append, countQ_append, countQ_append, noQ_countQ hf, noQ_countQ ho]
          have e1 : countQ " " = 0 := rfl
          have e2 : countQ " ? AND ?" = 2 := rfl
          rw [e1, e2]
    · rw [if_neg hbet]
      cases values with
      | nil =>
        have e : countQ "" = 0 := rfl
        simp [e]
      | cons v0 vs =>
        simp only [List.length_append, List.length_cons, List.length_nil]
        rw [countQ_append, countQ_append, countQ_append, noQ_countQ hf, noQ_countQ ho]
        have e1 : countQ " " = 0 := rfl
        have e2 : countQ " ?" = 1 := rfl
        rw [e1, e2]

theorem buildExpr_countQ (state : ExecState) (field op : String) (required : Bool)
    (val : GoVal) (hf : noQB field = true) (ho : noQB op = true) :
    (buildExpr state field op required val).2.args.length =
      state.args.length + countQ (buildExpr state field op required val).1 := by
  cases val with
  | varrAny xs =>
    cases xs with
    | nil =>
      cases required with
      | true => exact buildSqlPlaceholder_countQ state field op [GoVal.vnil] hf ho
      | false =>
        have e : countQ "" = 0 := rfl
        simp [buildExpr_arr_nil_optional, e]
    | cons x xt =>
      rw [buildExpr_arr_cons]
      exact buildSqlPlaceholder_countQ state field op (x :: xt) hf ho
  | varrStr xs =>
    cases xs with
    | nil =>
      cases required with
      | true => exact buildSqlPlaceholder_countQ state field op [GoVal.vnil] hf ho
      | false =>
        show state.args.length = state.args.length + countQ ""
        simp [show countQ "" = 0 from rfl]
    | cons x xt =>
      exact buildSqlPlaceholder_countQ state field op (GoVal.vstr x :: xt.map GoVal.vstr) hf ho
  | varrInt xs =>
    cases xs with
    | nil =>
      cases required with
      | true => exact buildSqlPlaceholder_countQ state field op [GoVal.vnil] hf ho
      | false =>
        show state.args.length = state.args.length + countQ ""
        simp [show countQ "" = 0 from rfl]
    | cons x xt =>
      exact buildSqlPlaceholder_countQ state field op (GoVal.vint x :: xt.map GoVal.vint) hf ho
  | varrInt64 xs =>
    cases xs with
    | nil =>
      cases required with
      | true => exact buildSqlPlaceholder_countQ state field op [GoVal.vnil] hf ho
      | false =>
        show state.args.length = state.args.length + countQ ""
        simp [show countQ "" = 0 from rfl]
    | cons x xt =>
      exact buildSqlPlaceholder_countQ state field op
        (GoVal.vint64 x :: xt.map GoVal.vint64) hf ho
  | vnil => exact buildSqlPlaceholder_countQ state field op [GoVal.vnil] hf ho
  | vbool b => exact buildSqlPlaceholder_countQ state field op [GoVal.vbool b] hf ho
  | vfloat q => exact buildSqlPlaceholder_countQ state field op [GoVal.vfloat q] hf ho
  | vint64 n => exact buildSqlPlaceholder_countQ state field op [GoVal.vint64 n] hf ho
  | vint n => exact buildSqlPlaceholder_countQ state field op [GoVal.vint n] hf ho
  | vstr s => exact buildSqlPlaceholder_countQ state field op [GoVal.vstr s] hf ho
  | vmap fs => exact buildSqlPlaceholder_countQ state field op [GoVal.vmap fs] hf ho

theorem exprRaw_countQ (state : ExecState) (required : Bool) (paths : List String)
    (hf : noQB (paths.getD 0 "") = true) (ho : noQB (paths.getD 1 "") = true) :
    (exprRaw state required paths).2.args.length =
      state.args.length + countQ (exprRaw state required paths).1 := by
  rcases paths with _ | ⟨f, _ | ⟨o, _ | ⟨r, rs⟩⟩⟩
  · show state.args.length = state.args.length + countQ ""
    have e : countQ "" = 0 := rfl
    simp [e]
  · have h1 : exprRaw state required [f] =
        buildExpr { state with errors := state.errors ++ ["expr: no values"] } f ""
          required GoVal.vnil := by cases required <;> rfl
    rw [h1]
    exact buildExpr_countQ _ _ _ _ _ hf ho
  · have h1 : exprRaw state required [f, o] =
        buildExpr { state with errors := state.errors ++ ["expr: no values"] } f o
          required GoVal.vnil := by cases required <;> rfl
    rw [h1]
    exact buildExpr_countQ _ _ _ _ _ hf ho
  · cases hg : gjsonGet state.data (goJoin "." (r :: rs)) with
    | none =>
      cases required with
      | true =>
        rw [exprRaw_missing_required _ _ _ _ _ hg]
        exact buildExpr_countQ _ _ _ _ _ hf ho
      | false =>
        rw [exprRaw_missing_optional _ _ _ _ _ hg]
        exact buildExpr_countQ _ _ _ _ _ hf ho
    | some v =>
      rw [exprRaw_found _ _ _ _ _ _ _ hg]
      exact buildExpr_countQ _ _ _ _ _ hf ho

theorem validatorRequiredFunc_shape (state : ExecState) (f c m : String)
    (paths : List String) :
    (validatorRequiredFunc state f c m paths).1 = "" ∧
    (validatorRequiredFunc state f c m paths).2.args = state.args := by
  cases hg : gjsonGet state.data (goJoin "." paths) with
  | none =>
    simp only [validatorRequiredFunc]
    rw [getValueByPath_none hg]
    exact ⟨rfl, rfl⟩
  | some v =>
    simp only [validatorRequiredFunc]
    rw [getValueByPath_some hg]
    exact ⟨rfl, rfl⟩

theorem validatorIntFunc_shape (state : ExecState) (f c m : String) (paths : List String) :
    (validatorIntFunc state f c m paths).1 = "" ∧
    (validatorIntFunc state f c m paths).2.args = state.args := by
  cases hg : gjsonGet state.data (goJoin "." paths) with
  | none =>
    simp only [validatorIntFunc]
    rw [getValueByPath_none hg]
    exact ⟨rfl, rfl⟩
  | some v =>
    simp only [validatorIntFunc]
    rw [getValueByPath_some hg]
    cases v <;> exact ⟨rfl, rfl⟩

theorem validatorFloatFunc_shape (state : ExecState) (f c m : String) (paths : List String) :
    (validatorFloatFunc state f c m paths).1 = "" ∧
    (validatorFloatFunc state f c m paths).2.args = state.args := by
  cases hg : gjsonGet state.data (goJoin "." paths) with
  | none =>
    simp only [validatorFloatFunc]
    rw [getValueByPath_none hg]
    exact ⟨rfl, rfl⟩
  | some v =>
    simp only [validatorFloatFunc]
    rw [getValueByPath_some hg]
    cases v <;> exact ⟨rfl, rfl⟩

theorem validatorStrFunc_shape (state : ExecState) (f c m : String) (paths : List String) :
    (validatorStrFunc state f c m paths).1 = "" ∧
    (validatorStrFunc state f c m paths).2.args = state.args := by
  cases hg : gjsonGet state.data (goJoin "." paths) with
  | none =>
    simp only [validatorStrFunc]
    rw [getValueByPath_none hg]
    exact ⟨rfl, rfl⟩
  | some v =>
    simp only [validatorStrFunc]
    rw [getValueByPath_some hg]
    cases v <;> exact ⟨rfl, rfl⟩

theorem evalSExpr_andF_lit (st : ExecState) (s : String) (conds : List SExpr) :
    evalSExpr st (SExpr.andF (SExpr.lit s) conds) =
      andOrFunc (evalList st conds).2 "and" (evalList st conds).1 := rfl

theorem evalSExpr_orE (st : ExecState) (conds : List SExpr) :
    evalSExpr st (SExpr.orE conds) =
      andOrFunc (evalList st conds).2 "or" (evalList st conds).1 := rfl

mutual

theorem evalSExpr_countQ (e : SExpr) (st : ExecState) (h : cleanSExprB e = true) :
    (evalSExpr st e).2.args.length = st.args.length + countQ (evalSExpr st e).1 := by
  cases e with
  | lit s =>
    show st.args.length = st.args.length + countQ s
    rw [noQ_countQ (by simpa [cleanSExprB] using h)]
    omega
  | val paths =>
    show (st.args ++ [(getValueByPath st paths).1]).length =
      st.args.length + countQ "?"
    rw [List.length_append, show countQ "?" = 1 from rfl]
    rfl
  | expr paths =>
    simp only [cleanSExprB, Bool.and_eq_true] at h
    exact exprRaw_countQ st true paths h.1 h.2
  | optExpr paths =>
    simp only [cleanSExprB, Bool.and_eq_true] at h
    exact exprRaw_countQ st false paths h.1 h.2
  | andF fn conds =>
    cases fn with
    | lit s =>
      rw [evalSExpr_andF_lit]
      have hl := evalList_countQ conds st (by simpa [cleanSExprB, isLitB] using h)
      have ha := andOrFunc_countQ (evalList st conds).2 "and" (evalList st conds).1 rfl
      rw [ha.2, congrArg List.length ha.1]
      omega
    | val paths => simp [cleanSExprB, isLitB] at h
    | expr paths => simp [cleanSExprB, isLitB] at h
    | optExpr paths => simp [cleanSExprB, isLitB] at h
    | andF fn2 conds2 => simp [cleanSExprB, isLitB] at h
    | orE conds2 => simp [cleanSExprB, isLitB] at h
    | getValue paths => simp [cleanSExprB, isLitB] at h
    | vRequired f c m paths => simp [cleanSExprB, isLitB] at h
    | vInt f c m paths => simp [cleanSExprB, isLitB] at h
    | vFloat f c m paths => simp [cleanSExprB, isLitB] at h
    | vStr f c m paths => simp [cleanSExprB, isLitB] at h
  | getValue paths => simp [cleanSExprB] at h
  | orE conds =>
    rw [evalSExpr_orE]
    have hl := evalList_countQ conds st (by simpa [cleanSExprB] using h)
    have ha := andOrFunc_countQ (evalList st conds).2 "or" (evalList st conds).1 rfl
    rw [ha.2, congrArg List.length ha.1]
    omega
  | vRequired f c m paths =>
    have hs := validatorRequiredFunc_shape st f c m paths
    show (validatorRequiredFunc st f c m paths).2.args.length =
      st.args.length + countQ (validatorRequiredFunc st f c m paths).1
    rw [hs.1, hs.2, show countQ "" = 0 from rfl]
    omega
  | vInt f c m paths =>
    have hs := validatorIntFunc_shape st f c m paths
    show (validatorIntFunc st f c m paths).2.args.length =
      st.args.length + countQ (validatorIntFunc st f c m paths).1
    rw [hs.1, hs.2, show countQ "" = 0 from rfl]
    omega
  | vFloat f c m paths =>
    have hs := validatorFloatFunc_shape st f c m paths
    show (validatorFloatFunc st f c m paths).2.args.length =
      st.args.length + countQ (validatorFloatFunc st f c m paths).1
    rw [hs.1, hs.2, show countQ "" = 0 from rfl]
    omega
  | vStr f c m paths =>
    have hs := validatorStrFunc_shape st f c m paths
    show (validatorStrFunc st f c m paths).2.args.length =
      st.args.length + countQ (validatorStrFunc st f c m paths).1
    rw [hs.1, hs.2, show countQ "" = 0 from rfl]
    omega

theorem evalList_countQ (es : List SExpr) (st : ExecState) (h : cleanListB es = true) :
    (evalList st es).2.args.length =
      st.args.length + ((evalList st es).1.map countQ).sum := by
  cases es with
  | nil =>
    show st.args.length = st.args.length + (([] : List String).map countQ).sum
    simp
  | cons e es =>
    simp only [cleanListB, Bool.and_eq_true] at h
    have he := evalSExpr_countQ e st h.1
    have hes := evalList_countQ es (evalSExpr st e).2 h.2
    show (evalList (evalSExpr st e).2 es).2.args.length =
      st.args.length +
        (((evalSExpr st e).1 :: (evalList (evalSExpr st e).2 es).1).map countQ).sum
    rw [List.map_cons, List.sum_cons]
    omega

end

theorem renderNodes_countQ (ns : List Node) :
    ∀ st : ExecState, cleanTmplB ns = true →
    (renderNodes st ns).2.args.length = st.args.length + countQ (renderNodes st ns).1 := by
  induction ns with
  | nil =>
    intro st h
    show st.args.length = st.args.length + countQ ""
    rw [show countQ "" = 0 from rfl]
    omega
  | cons n ns ih =>
    intro st h
    simp only [cleanTmplB, Bool.and_eq_true] at h
    cases n with
    | text s =>
      show (renderNodes st ns).2.args.length =
        st.args.length + countQ (s ++ (renderNodes st ns).1)
      rw [countQ_append, noQ_countQ h.1]
      have := ih st h.2
      omega
    | action e =>
      show (renderNodes (evalSExpr st e).2 ns).2.args.length =
        st.args.length + countQ ((evalSExpr st e).1 ++ (renderNodes (evalSExpr st e).2 ns).1)
      rw [countQ_append]
      have he := evalSExpr_countQ e st h.1
      have hn := ih (evalSExpr st e).2 h.2
      omega

/-- C1 counterexample: the claim predicts that the placeholder count of
the SQL text of every Execute result equals the argument count. It
fails three ways on parsed templates: literal text holding a question
mark renders a placeholder with no argument; the registered andFunc
discards its first string argument, so an and call whose first argument
is itself an expr loses that fragment text while keeping its bound
argument; and a printed getValue action copies a question mark valued
document string into the SQL with no argument. -/
theorem claim1_counterexample :
    countQ (Execute [Node.text "?"] (GoVal.vmap [])).SQL ≠
      (Execute [Node.text "?"] (GoVal.vmap [])).Args.length ∧
    countQ (Execute [Node.action (SExpr.andF (SExpr.expr ["a", "=", "params", "x"])
        [SExpr.expr ["b", "=", "params", "y"]])]
      (GoVal.vmap [("params", GoVal.vmap [("x", GoVal.vfloat 1),
        ("y", GoVal.vfloat 2)])])).SQL ≠
      (Execute [Node.action (SExpr.andF (SExpr.expr ["a", "=", "params", "x"])
        [SExpr.expr ["b", "=", "params", "y"]])]
        (GoVal.vmap [("params", GoVal.vmap [("x", GoVal.vfloat 1),
          ("y", GoVal.vfloat 2)])])).Args.length ∧
    countQ (Execute [Node.action (SExpr.getValue ["params", "q"])]
      (GoVal.vmap [("params", GoVal.vmap [("q", GoVal.vstr "?")])])).SQL ≠
      (Execute [Node.action (SExpr.getValue ["params", "q"])]
        (GoVal.vmap [("params", GoVal.vmap [("q", GoVal.vstr "?")])])).Args.length := by
  refine ⟨by decide, by decide, by decide⟩

/-- C1 amended: for every parsed template that is a sequence of literal
text and actions built from val, expr, optExpr, and, or and validator
calls, in which every literal text segment and every expr and optExpr
field and operator argument is free of the placeholder character, no
getValue action occurs, and the first argument of every and call (the
funcName parameter the registered andFunc discards) is a string
literal, and for every parsed parameter document, the number of
placeholder characters in the SQL field of the Execute result equals
the length of its argument list. -/
theorem claim1_placeholder_count_amended (tmpl : List Node) (doc : GoVal)
    (h : cleanTmplB tmpl = true) :
    countQ (Execute tmpl doc).SQL = (Execute tmpl doc).Args.length := by
  show countQ (cleanSQL (renderNodes (mkState doc) tmpl).1) =
    (renderNodes (mkState doc) tmpl).2.args.length
  rw [countQ_cleanSQL]
  have h1 := renderNodes_countQ tmpl (mkState doc) h
  have h0 : (mkState doc).args.length = 0 := rfl
  omega

/-! Witnesses: each theorem with hypotheses applied at a concrete input. -/

/-- Witness for the amended C1 on a concrete clean template, with the
and call carrying a discarded literal first argument as in the
documented andFunc usage. -/
theorem claim1_witness :
    cleanTmplB [Node.text "SELECT * FROM t WHERE ",
      Node.action (SExpr.andF (SExpr.lit "") [SExpr.expr ["a", "=", "params", "x"],
        SExpr.orE [SExpr.expr ["b", "IN", "params", "ids"],
          SExpr.optExpr ["c", "<", "params", "y"]]])] = true ∧
    countQ (Execute [Node.text "SELECT * FROM t WHERE ",
      Node.action (SExpr.andF (SExpr.lit "") [SExpr.expr ["a", "=", "params", "x"],
        SExpr.orE [SExpr.expr ["b", "IN", "params", "ids"],
          SExpr.optExpr ["c", "<", "params", "y"]]])]
      (GoVal.vmap [("params", GoVal.vmap [("x", GoVal.vstr "v"),
        ("ids", GoVal.varrAny [GoVal.vfloat 1, GoVal.vfloat 2])])])).SQL =
      (Execute [Node.text "SELECT * FROM t WHERE ",
        Node.action (SExpr.andF (SExpr.lit "") [SExpr.expr ["a", "=", "params", "x"],
          SExpr.orE [SExpr.expr ["b", "IN", "params", "ids"],
            SExpr.optExpr ["c", "<", "params", "y"]]])]
        (GoVal.vmap [("params", GoVal.vmap [("x", GoVal.vstr "v"),
          ("ids", GoVal.varrAny [GoVal.vfloat 1, GoVal.vfloat 2])])])).Args.length :=
  ⟨by decide, claim1_placeholder_count_amended _ _ (by decide)⟩

/-- Witness for the amended C2 on a concrete missing path. -/
theorem claim2_witness :
    countQ (exprRaw (mkState (GoVal.vmap [])) true ["age", ">=", "params", "minAge"]).1 = 1 ∧
    (exprRaw (mkState (GoVal.vmap [])) true ["age", ">=", "params", "minAge"]).2.args =
      (mkState (GoVal.vmap [])).args ++ [GoVal.vnil] ∧
    (exprRaw (mkState (GoVal.vmap [])) true ["age", ">=", "params", "minAge"]).2.errors =
      (mkState (GoVal.vmap [])).errors ++ ["expr: no values"] :=
  claim2_required_missing_amended (mkState (GoVal.vmap [])) "age" ">=" ["params", "minAge"]
    (by decide) rfl (by decide) (by decide) (by decide)

/-- Witness for C3 on a concrete missing path. -/
theorem claim3_witness :
    (exprRaw (mkState (GoVal.vmap [])) false ["name", "=", "params", "name"]).1 =
      (exprRaw (mkState (GoVal.vmap [])) true ["name", "=", "params", "name"]).1 ∧
    (exprRaw (mkState (GoVal.vmap [])) false ["name", "=", "params", "name"]).2.args =
      (exprRaw (mkState (GoVal.vmap [])) true ["name", "=", "params", "name"]).2.args ∧
    (exprRaw (mkState (GoVal.vmap [])) false ["name", "=", "params", "name"]).2.validatorsErrors =
      (exprRaw (mkState (GoVal.vmap [])) true ["name", "=", "params", "name"]).2.validatorsErrors ∧
    ∃ extra,
      (exprRaw (mkState (GoVal.vmap [])) false ["name", "=", "params", "name"]).2.errors =
        (mkState (GoVal.vmap [])).errors ++ extra ∧
      (exprRaw (mkState (GoVal.vmap [])) true ["name", "=", "params", "name"]).2.errors =
        (mkState (GoVal.vmap [])).errors ++ ["expr: no values"] ++ extra :=
  claim3_optExpr_matches_expr_on_missing (mkState (GoVal.vmap [])) "name" "=" "params"
    ["name"] rfl

/-- Witness for the amended C4 on the optional variant with two
arguments. -/
theorem claim4_witness :
    exprRaw (mkState (GoVal.vmap [])) false ["f", "="] =
      ("f" ++ " " ++ "=" ++ " ?",
        { mkState (GoVal.vmap []) with
          errors := (mkState (GoVal.vmap [])).errors ++ ["expr: no values"]
          args := (mkState (GoVal.vmap [])).args ++ [GoVal.vnil] }) ∧
    exprRaw (mkState (GoVal.vmap [])) false ["f"] =
      ("f" ++ " " ++ "" ++ " ?",
        { mkState (GoVal.vmap []) with
          errors := (mkState (GoVal.vmap [])).errors ++ ["expr: no values"]
          args := (mkState (GoVal.vmap [])).args ++ [GoVal.vnil] }) ∧
    exprRaw (mkState (GoVal.vmap [])) false [] = ("", mkState (GoVal.vmap [])) :=
  claim4_short_call_amended (mkState (GoVal.vmap [])) "f" "=" false (by decide) (by decide)

/-- Witness for the amended C5 on a concrete two element array. -/
theorem claim5_witness :
    exprRaw (mkState (GoVal.vmap [("params", GoVal.vmap [("ids",
        GoVal.varrAny [GoVal.vfloat 1, GoVal.vfloat 2])])])) true
      ["id", "IN", "params", "ids"] =
      ("id" ++ " " ++ "IN" ++ " (" ++
          goJoin ", " (([GoVal.vfloat 1, GoVal.vfloat 2]).map (fun _ => "?")) ++ ")",
        { mkState (GoVal.vmap [("params", GoVal.vmap [("ids",
            GoVal.varrAny [GoVal.vfloat 1, GoVal.vfloat 2])])]) with
          args := (mkState (GoVal.vmap [("params", GoVal.vmap [("ids",
            GoVal.varrAny [GoVal.vfloat 1, GoVal.vfloat 2])])])).args ++
              [GoVal.vfloat 1, GoVal.vfloat 2] }) :=
  claim5_in_array_amended _ "id" "IN" "params" ["ids"]
    [GoVal.vfloat 1, GoVal.vfloat 2] rfl (List.cons_ne_nil _ _) (by decide)

/-- Witness for C6 covering the empty, singleton and joined cases. -/
theorem claim6_witness :
    andOrFunc (mkState (GoVal.vmap [])) "and" [" ", ""] =
      ("", { mkState (GoVal.vmap []) with
        errors := (mkState (GoVal.vmap [])).errors ++ ["and: no valid conditions"] }) ∧
    andOrFunc (mkState (GoVal.vmap [])) "and" [" a = 1 "] =
      ("(" ++ "a = 1" ++ ")", mkState (GoVal.vmap [])) ∧
    andOrFunc (mkState (GoVal.vmap [])) "or" ["a = 1", "", "b = 2"] =
      ("(" ++ goJoin (" " ++ "or" ++ " ") ["a = 1", "b = 2"] ++ ")",
        mkState (GoVal.vmap [])) :=
  ⟨(claim6_and_or_spec (mkState (GoVal.vmap [])) "and" [" ", ""]).1 rfl,
    (claim6_and_or_spec (mkState (GoVal.vmap [])) "and" [" a = 1 "]).2.1 "a = 1" rfl,
    (claim6_and_or_spec (mkState (GoVal.vmap [])) "or" ["a = 1", "", "b = 2"]).2.2
      "a = 1" "b = 2" [] rfl⟩

/-- Witness for C7: an explicit null passes, an absent path fails. -/
theorem claim7_witness :
    (validatorRequiredFunc (mkState (GoVal.vmap [("x", GoVal.vnil)])) "x" "c" "m" ["x"]).2 =
      mkState (GoVal.vmap [("x", GoVal.vnil)]) ∧
    (validatorRequiredFunc (mkState (GoVal.vmap [])) "x" "c" "m" ["x"]).2 =
      { mkState (GoVal.vmap []) with
        validatorsErrors := (mkState (GoVal.vmap [])).validatorsErrors ++
          [{ typeTag := ErrValidatorRequired, fieldName := "x", code := "c", msg := "m",
             paths := goJoin "." ["x"] }] } :=
  ⟨(claim7_validator_required_spec (mkState (GoVal.vmap [("x", GoVal.vnil)]))
      "x" "c" "m" ["x"]).2.1 GoVal.vnil rfl,
    (claim7_validator_required_spec (mkState (GoVal.vmap [])) "x" "c" "m" ["x"]).1 rfl⟩

/-- Witness for C9: the divergence on a concrete empty array and the
agreement on a concrete missing scalar path. -/
theorem claim9_witness :
    exprRaw (mkState (GoVal.vmap [("params", GoVal.vmap [("ids", GoVal.varrAny [])])])) true
      ["c", "<", "params", "ids"] =
      ("c" ++ " " ++ "<" ++ " ?",
        { mkState (GoVal.vmap [("params", GoVal.vmap [("ids", GoVal.varrAny [])])]) with
          args := (mkState (GoVal.vmap [("params", GoVal.vmap [("ids",
            GoVal.varrAny [])])])).args ++ [GoVal.vnil] }) ∧
    exprRaw (mkState (GoVal.vmap [("params", GoVal.vmap [("ids", GoVal.varrAny [])])])) false
      ["c", "<", "params", "ids"] =
      ("", mkState (GoVal.vmap [("params", GoVal.vmap [("ids", GoVal.varrAny [])])])) ∧
    (exprRaw (mkState (GoVal.vmap [])) true ["a", "=", "params", "x"]).1 =
      (exprRaw (mkState (GoVal.vmap [])) false ["a", "=", "params", "x"]).1 :=
  ⟨(claim9_optExpr_empty_array_divergence.1
      (mkState (GoVal.vmap [("params", GoVal.vmap [("ids", GoVal.varrAny [])])]))
      "c" "<" "params" ["ids"] rfl (by decide) (by decide)).1,
    (claim9_optExpr_empty_array_divergence.1
      (mkState (GoVal.vmap [("params", GoVal.vmap [("ids", GoVal.varrAny [])])]))
      "c" "<" "params" ["ids"] rfl (by decide) (by decide)).2,
    (claim9_optExpr_empty_array_divergence.2 (mkState (GoVal.vmap []))
      ["a", "=", "params", "x"]
      (fun v _ hg => Option.noConfusion
        (show (none : Option GoVal) = some v from hg))).1⟩

/-- Witness for C10 on a concrete string valued path. -/
theorem claim10_witness :
    (validatorFloatFunc (mkState (GoVal.vmap [("params", GoVal.vmap [("x",
        GoVal.vstr "a")])])) "x" "c" "m" ["params", "x"]).2.validatorsErrors =
      (mkState (GoVal.vmap [("params", GoVal.vmap [("x",
        GoVal.vstr "a")])])).validatorsErrors ++
        [{ typeTag := ErrValidatorTypeInt, fieldName := "x", code := "c", msg := "m",
           paths := goJoin "." ["params", "x"] }] ∧
    ErrValidatorTypeInt = "int" :=
  claim10_validator_float_int_tag _ "x" "c" "m" ["params", "x"] (GoVal.vstr "a") rfl
    (fun _ h => GoVal.noConfusion h)

end QSql
